import Mathlib

/-!
# Verification of the interval-scheduling core of `makan-apa`

Shallow embedding of `src/app.py`'s scheduling core: the normalizer
`process_s3_schedule`, the gap calculator `calculate_gaps`, the pairwise and
N-way intersectors `intersect_two_gap_lists` / `find_mutual_gaps`, and the
duration-label fragment of `render_grid_html`.  Time values are exact
rationals (Python floats in the source; all quantities of interest are small
dyadic/sexagesimal fractions).
-/

namespace MakanApa

/-- `DAYS_OF_WEEK` (line 18 of `src/app.py`). -/
def DAYS_OF_WEEK : List String := ["Mon", "Tue", "Wed", "Thu", "Fri"]

/-- A class record: one of the dicts appended by `process_s3_schedule`
(lines 132-141), with keys `day, start, end, duration, subject, type,
location, is_gap`. -/
structure Event where
  day : String
  start : ℚ
  «end» : ℚ
  duration : ℚ
  subject : String
  type : String
  location : String
  is_gap : Bool
deriving DecidableEq, Repr

/-- A gap or mutual-gap record: the dicts appended by `calculate_gaps`
(lines 158-167) and `intersect_two_gap_lists` (lines 182-191), with keys
`day, start, end, duration, subject, type, is_gap, is_mutual`. -/
structure Gap where
  day : String
  start : ℚ
  «end» : ℚ
  duration : ℚ
  subject : String
  type : String
  is_gap : Bool
  is_mutual : Bool
deriving DecidableEq, Repr

/-! ## Interval Normalizer: `process_s3_schedule` (lines 77-143) -/

/-- A raw S3 record.  The Python code reads these keys from heterogeneous
dicts via `item.get`; `none` models an absent key. -/
structure RawItem where
  INTAKE : Option String
  GROUPING : Option String
  DAY : Option String
  TIME_FROM_ISO : Option String
  TIME_TO_ISO : Option String
  MODULE_NAME : Option String
  MODID : Option String
  ROOM : Option String
  LOCATION : Option String
deriving DecidableEq, Repr

/-- Value of a decimal digit character, or `none`. -/
def digitVal (c : Char) : Option ℕ :=
  if c.isDigit then some (c.toNat - 48) else none

/-- Two decimal digits. -/
def num2 (a b : Char) : Option ℕ := do
  let x ← digitVal a
  let y ← digitVal b
  pure (10 * x + y)

/-- Four decimal digits. -/
def num4 (a b c d : Char) : Option ℕ := do
  let x ← num2 a b
  let y ← num2 c d
  pure (100 * x + y)

/-- Parse a `YYYY-MM-DD` date at the head of a character list, returning the
date and the remaining characters.  Models the date part accepted by Python's
`datetime.fromisoformat` / `strptime("%Y-%m-%d")`. -/
def parseDate : List Char → Option ((ℕ × ℕ × ℕ) × List Char)
  | y1 :: y2 :: y3 :: y4 :: '-' :: m1 :: m2 :: '-' :: d1 :: d2 :: rest => do
    let y ← num4 y1 y2 y3 y4
    let m ← num2 m1 m2
    let d ← num2 d1 d2
    if 1 ≤ y ∧ 1 ≤ m ∧ m ≤ 12 ∧ 1 ≤ d ∧ d ≤ 31 then pure ((y, m, d), rest) else none
  | _ => none

/-- Parse an optional `:SS` seconds suffix (which must end the string). -/
def parseSeconds : List Char → Option Unit
  | [] => some ()
  | ':' :: s1 :: s2 :: [] =>
    match num2 s1 s2 with
    | some s => if s ≤ 59 then some () else none
    | none => none
  | _ => none

/-- Parse an optional `THH:MM[:SS]` time-of-day suffix. -/
def parseTimeOfDay : List Char → Option (ℕ × ℕ)
  | [] => some (0, 0)
  | 'T' :: h1 :: h2 :: ':' :: n1 :: n2 :: rest =>
    match num2 h1 h2, num2 n1 n2, parseSeconds rest with
    | some h, some n, some _ => if h ≤ 23 ∧ n ≤ 59 then some (h, n) else none
    | _, _, _ => none
  | _ => none

/-- Model of `datetime.fromisoformat`: `(year, month, day, hour, minute)`,
or `none` when parsing raises. -/
def fromisoformat (s : String) : Option (ℕ × ℕ × ℕ × ℕ × ℕ) :=
  match parseDate s.toList with
  | some (d, rest) =>
    match parseTimeOfDay rest with
    | some (h, n) => some (d.1, d.2.1, d.2.2, h, n)
    | none => none
  | none => none

/-- `parse_iso_time` (lines 69-75): the wall-clock time of an ISO string as a
decimal hour `hour + minute / 60`, or `None` when parsing fails. -/
def parse_iso_time (s : String) : Option ℚ :=
  match fromisoformat s with
  | some (_, _, _, h, n) => some ((h : ℚ) + (n : ℚ) / 60)
  | none => none

/-- Ordinal day number of a civil date (standard days-from-civil formula,
valid for years ≥ 1).  Models comparison of Python `date` values and
`timedelta(days=6)` arithmetic in lines 87-100. -/
def days_from_civil (y m d : ℕ) : ℕ :=
  let y2 := if m ≤ 2 then y - 1 else y
  let era := y2 / 400
  let yoe := y2 % 400
  let mp := (m + 9) % 12
  let doy := (153 * mp + 2) / 5 + d - 1
  let doe := yoe * 365 + yoe / 4 - yoe / 100 + doy
  era * 146097 + doe

/-- `datetime.fromisoformat(s).date()` as an ordinal, or `none` on failure. -/
def date_ordinal (s : String) : Option ℕ :=
  match fromisoformat s with
  | some (y, m, d, _, _) => some (days_from_civil y m d)
  | none => none

/-- `datetime.strptime(s, "%Y-%m-%d").date()` (line 87): a full-string date,
or `none` where Python would raise. -/
def strptime_date (s : String) : Option ℕ :=
  match parseDate s.toList with
  | some (d, []) => some (days_from_civil d.1 d.2.1 d.2.2)
  | _ => none

/-- The `day_map` lookup of lines 108-112 applied to `item.get('DAY')`. -/
def day_map : Option String → Option String
  | some "MON" => some "Mon"
  | some "TUE" => some "Tue"
  | some "WED" => some "Wed"
  | some "THU" => some "Thu"
  | some "FRI" => some "Fri"
  | _ => none

/-- Substring search over character lists (Python's `pat in s`). -/
def matchesAt : List Char → List Char → Bool
  | [], _ => true
  | _ :: _, [] => false
  | p :: ps, c :: cs => (p == c) && matchesAt ps cs

/-- Whether `pat` occurs in `s` (Python's `pat in s`). -/
def hasSub : List Char → List Char → Bool
  | pat, [] => matchesAt pat []
  | pat, c :: cs => matchesAt pat (c :: cs) || hasSub pat cs

/-- Python's substring test `pat in s`. -/
def strContains (s pat : String) : Bool := hasSub pat.toList s.toList

/-- Lines 127-130: class type from the MODID string. -/
def class_type_of (modid : String) : String :=
  if strContains modid "-L-" || strContains modid "(L)" then "Lecture"
  else if strContains modid "-T-" || strContains modid "(T)" then "Tutorial"
  else if strContains modid "-LAB-" || strContains modid "(LAB)" then "Lab"
  else "Class"

/-- Line 92: the intake/group filter of the first loop. -/
def matches_selection (intake_code group_code : String) (item : RawItem) : Bool :=
  item.INTAKE == some intake_code && item.GROUPING == some group_code

/-- Lines 95-102: the week filter; a record whose `TIME_FROM_ISO` has no
usable date is dropped (the bare `except: continue`). -/
def in_week (week_start : ℕ) (item : RawItem) : Bool :=
  match item.TIME_FROM_ISO with
  | some s =>
    match date_ordinal s with
    | some ed => decide (week_start ≤ ed ∧ ed ≤ week_start + 6)
    | none => false
  | none => false

/-- Lines 106-141: build one schedule record from a filtered item, or skip it
(`if not day or start is None or end is None: continue`). -/
def item_to_event (item : RawItem) : Option Event :=
  match day_map item.DAY, item.TIME_FROM_ISO.bind parse_iso_time,
      item.TIME_TO_ISO.bind parse_iso_time with
  | some d, some s, some e =>
    some { day := d, start := s, «end» := e, duration := e - s,
           subject := item.MODULE_NAME.getD (item.MODID.getD "Unknown"),
           type := class_type_of (item.MODID.getD ""),
           location := item.ROOM.getD (item.LOCATION.getD "Unknown"),
           is_gap := false }
  | _, _, _ => none

/-- `process_s3_schedule` (lines 77-143).  Returns `none` exactly when a week
string is supplied and `strptime` raises on it; otherwise `some` of the list
of schedule records. -/
def process_s3_schedule (data : List RawItem) (intake_code group_code : String)
    (week_date_str : Option String) : Option (List Event) :=
  match week_date_str with
  | none =>
    some ((data.filter fun item =>
      matches_selection intake_code group_code item).filterMap item_to_event)
  | some w =>
    match strptime_date w with
    | none => none
    | some ws =>
      some ((data.filter fun item =>
        matches_selection intake_code group_code item && in_week ws item).filterMap
          item_to_event)

/-! ## Gap Calculator: `calculate_gaps` (lines 145-170) -/

/-- The inner per-day sweep of `calculate_gaps` (lines 152-168): walk the
sorted day events with a cursor, emitting a gap record before any event that
starts after the cursor, kept only when it lasts at least 0.25 h; then
advance the cursor to `max cursor event.end`. -/
def sweep_day (day : String) (current_time : ℚ) : List Event → List Gap
  | [] => []
  | event :: rest =>
    (if current_time < event.start then
      (if (0.25 : ℚ) ≤ event.start - current_time then
        [{ day := day, start := current_time, «end» := event.start,
           duration := event.start - current_time, subject := "Gap", type := "Gap",
           is_gap := true, is_mutual := false }]
      else [])
    else []) ++ sweep_day day (max current_time event.«end») rest

/-- `calculate_gaps` (lines 145-170): per canonical day, filter that day's
events, sort them by start (Python's stable `sorted`), and sweep from the
8.0 day start.  No trailing end-of-day gap is emitted. -/
def calculate_gaps (schedule : List Event) : List Gap :=
  DAYS_OF_WEEK.flatMap fun day =>
    sweep_day day 8
      (List.insertionSort (fun a b => a.start ≤ b.start)
        (schedule.filter fun e => e.day == day))

/-! ## N-way Gap Intersector (lines 172-207) -/

/-- The body of the double loop of `intersect_two_gap_lists` (lines 175-191):
the candidate mutual record for one pair of gaps, if any. -/
def intersect_pair (g1 g2 : Gap) : Option Gap :=
  if g1.day = g2.day then
    let s := max g1.start g2.start
    let e := min g1.«end» g2.«end»
    if (0.5 : ℚ) ≤ e - s then
      some { day := g1.day, start := s, «end» := e, duration := e - s,
             subject := "Mutual Gap", type := "Mutual", is_gap := true,
             is_mutual := true }
    else none
  else none

/-- `intersect_two_gap_lists` (lines 172-192): the full cross product of the
two lists, keeping every same-day overlap of at least 0.5 h. -/
def intersect_two_gap_lists (list1 list2 : List Gap) : List Gap :=
  list1.flatMap fun g1 => list2.filterMap fun g2 => intersect_pair g1 g2

/-- The fold loop of `find_mutual_gaps` (lines 201-205), including the early
`break` when the running intersection becomes empty. -/
def mutual_fold (current_mutual : List Gap) : List (List Gap) → List Gap
  | [] => current_mutual
  | next_list :: rest =>
    let c := intersect_two_gap_lists current_mutual next_list
    if c = [] then c else mutual_fold c rest

/-- `find_mutual_gaps` (lines 194-207): left fold of pairwise intersection
over all gap lists, starting from the first. -/
def find_mutual_gaps : List (List Gap) → List Gap
  | [] => []
  | l :: ls => mutual_fold l ls

/-! ## Formatter fragment: the break label of `render_grid_html`
(lines 436-439)

The program runs on IEEE-754 binary64 floats, and the minute label
`int((duration % 1) * 60)` is sensitive to their roundoff, so this fragment
is modelled over an exact binary64 model: a double is the rational it
denotes, and each arithmetic operation rounds its exact result to 53
significand bits, to nearest, ties to even (the model covers the normal
range; every value in this development is normal). -/

/-- Floor of the base-2 logarithm, by fuel-bounded halving (`fuel = n`
suffices since `n ≥ log2 n`). -/
def log2fuel : ℕ → ℕ → ℕ
  | 0, _ => 0
  | fuel + 1, n => if 2 ≤ n then log2fuel fuel (n / 2) + 1 else 0

/-- `⌊log2 n⌋` for `n ≥ 1`. -/
def nlog2 (n : ℕ) : ℕ := log2fuel n n

/-- Round a positive rational to binary64: scale into `[2^52, 2^53)`, round
the significand to an integer (to nearest, ties to even), and scale back. -/
def flPos (q : ℚ) : ℚ :=
  let a := q.num.natAbs
  let b := q.den
  let L : ℤ := (nlog2 a : ℤ) - (nlog2 b : ℤ)
  let e0 : ℤ := L - 52
  let u0 := if e0 ≤ 0 then a * 2 ^ (-e0).toNat else a
  let v0 := if e0 ≤ 0 then b else b * 2 ^ e0.toNat
  let e : ℤ := if u0 < 2 ^ 52 * v0 then e0 - 1 else e0
  let u := if e ≤ 0 then a * 2 ^ (-e).toNat else a
  let v := if e ≤ 0 then b else b * 2 ^ e.toNat
  let n := u / v
  let rem := u % v
  let n2 := if 2 * rem < v then n
            else if v < 2 * rem then n + 1
            else if n % 2 = 0 then n else n + 1
  if e ≤ 0 then (n2 : ℚ) / ((2 ^ (-e).toNat : ℕ) : ℚ) else ((n2 * 2 ^ e.toNat : ℕ) : ℚ)

/-- Binary64 rounding of an exact rational (normal range). -/
def fl (q : ℚ) : ℚ := if q = 0 then 0 else if q < 0 then -flPos (-q) else flPos q

/-- Binary64 addition: exact sum, then rounding. -/
def fadd (a b : ℚ) : ℚ := fl (a + b)

/-- Binary64 subtraction: exact difference, then rounding. -/
def fsub (a b : ℚ) : ℚ := fl (a - b)

/-- Binary64 multiplication: exact product, then rounding. -/
def fmul (a b : ℚ) : ℚ := fl (a * b)

/-- Binary64 division: exact quotient, then rounding. -/
def fdiv (a b : ℚ) : ℚ := fl (a / b)

/-- Python `int()` on a double's value: truncation toward zero (exact — no
further float operation is involved). -/
def pyInt (q : ℚ) : ℤ := if q < 0 then -⌊-q⌋ else ⌊q⌋

/-- Python `q % 1` on a double's value: the fractional part.  This needs no
`fl`: float `%` is computed exactly (C `fmod` is exact), and the fractional
part of a double is always representable — its bits are a low suffix of the
double's significand. -/
def pyMod1 (q : ℚ) : ℚ := q - ⌊q⌋

/-- The binary64 value `parse_iso_time` (line 73) returns for a wall-clock
time: `dt.hour + dt.minute / 60` evaluated in doubles. -/
def parse_time_fp (hour minute : ℚ) : ℚ := fadd hour (fdiv minute 60)

/-- The binary64 gap duration of line 156: `event['start'] - current_time`
evaluated in doubles. -/
def gap_duration_fp (current_time start : ℚ) : ℚ := fsub start current_time

/-- The inner HTML of a break card, lines 436-439: the `{int(d)}h
{int((d%1)*60)}m` label, with the `⚡ MUTUAL:` variant for mutual records.
`e.duration` is the binary64 value the record stores; `d % 1` is exact (see
`pyMod1`), the `* 60` product rounds (`fmul`), and `int()` truncates. -/
def break_duration_html (e : Gap) : String :=
  if e.type == "Mutual" then
    "<div class=\"break-duration\">⚡ MUTUAL: " ++ toString (pyInt e.duration)
      ++ "h " ++ toString (pyInt (fmul (pyMod1 e.duration) 60)) ++ "m</div>"
  else
    "<div class=\"break-duration\">" ++ toString (pyInt e.duration)
      ++ "h " ++ toString (pyInt (fmul (pyMod1 e.duration) 60)) ++ "m Gap</div>"

/-! ## Abbreviations for concrete records used in the claims -/

/-- A busy interval as the normalizer emits it (metadata fields fixed). -/
def busy (d : String) (s e : ℚ) : Event :=
  { day := d, start := s, «end» := e, duration := e - s, subject := "Class",
    type := "Class", location := "Room", is_gap := false }

/-- The gap record `calculate_gaps` appends for the window `[s, e)`. -/
def gapRec (d : String) (s e : ℚ) : Gap :=
  { day := d, start := s, «end» := e, duration := e - s, subject := "Gap",
    type := "Gap", is_gap := true, is_mutual := false }

/-- The mutual record `intersect_two_gap_lists` appends for `[s, e)`. -/
def mutualRec (d : String) (s e : ℚ) : Gap :=
  { day := d, start := s, «end» := e, duration := e - s, subject := "Mutual Gap",
    type := "Mutual", is_gap := true, is_mutual := true }

/-! ## Basic shape lemmas -/

/-- Every record emitted by the per-day sweep is a gap record spanning from
some cursor position to some event start, of duration at least 0.25 h. -/
lemma mem_sweep_day {day : String} {l : List Event} :
    ∀ {cur : ℚ} {g : Gap}, g ∈ sweep_day day cur l →
      ∃ c t, g = gapRec day c t ∧ (0.25 : ℚ) ≤ t - c := by
  induction l with
  | nil => intro cur g hg; simp [sweep_day] at hg
  | cons e rest ih =>
    intro cur g hg
    simp only [sweep_day] at hg
    rcases List.mem_append.1 hg with h | h
    · split_ifs at h with h1 h2
      · simp only [List.mem_singleton] at h
        exact ⟨cur, e.start, h, h2⟩
      · simp at h
      · simp at h
    · exact ih h

/-- Membership in `calculate_gaps`, unfolded to the per-day sweeps. -/
lemma mem_calculate_gaps {schedule : List Event} {g : Gap} :
    g ∈ calculate_gaps schedule ↔
      ∃ d ∈ DAYS_OF_WEEK,
        g ∈ sweep_day d 8
          (List.insertionSort (fun a b => a.start ≤ b.start)
            (schedule.filter fun e => e.day == d)) := by
  simp [calculate_gaps, List.mem_flatMap]

/-- Characterization of one pairwise-intersection step. -/
lemma intersect_pair_eq_some {g1 g2 m : Gap} :
    intersect_pair g1 g2 = some m ↔
      g1.day = g2.day ∧
      (0.5 : ℚ) ≤ min g1.«end» g2.«end» - max g1.start g2.start ∧
      m = mutualRec g1.day (max g1.start g2.start) (min g1.«end» g2.«end») := by
  simp only [intersect_pair]
  split_ifs with h1 h2
  · simp only [Option.some.injEq, mutualRec]
    exact ⟨fun h => ⟨h1, h2, h.symm⟩, fun h => h.2.2.symm⟩
  · simp only [reduceCtorEq, false_iff, not_and]
    intro _ h; exact absurd h h2
  · simp only [reduceCtorEq, false_iff, not_and]
    intro h; exact absurd h h1

/-- Membership in a pairwise intersection. -/
lemma mem_intersect_two {l1 l2 : List Gap} {m : Gap} :
    m ∈ intersect_two_gap_lists l1 l2 ↔
      ∃ g1 ∈ l1, ∃ g2 ∈ l2, intersect_pair g1 g2 = some m := by
  simp [intersect_two_gap_lists, List.mem_flatMap, List.mem_filterMap]

/-- The two inputs of a successful intersection step both cover the output,
and the output is at least 0.5 h long. -/
lemma intersect_pair_covers {g1 g2 m : Gap} (h : intersect_pair g1 g2 = some m) :
    (g1.day = m.day ∧ g1.start ≤ m.start ∧ m.«end» ≤ g1.«end») ∧
    (g2.day = m.day ∧ g2.start ≤ m.start ∧ m.«end» ≤ g2.«end») ∧
    (0.5 : ℚ) ≤ m.«end» - m.start := by
  obtain ⟨hd, hdur, rfl⟩ := intersect_pair_eq_some.1 h
  refine ⟨⟨rfl, le_max_left _ _, min_le_left _ _⟩,
          ⟨hd.symm, le_max_right _ _, min_le_right _ _⟩, hdur⟩

/-- The empty list is absorbing on the left for pairwise intersection. -/
lemma intersect_two_nil_left (l : List Gap) : intersect_two_gap_lists [] l = [] := rfl

/-- `mutual_fold` over a single remaining list is a plain intersection. -/
lemma mutual_fold_single (cur n : List Gap) :
    mutual_fold cur [n] = intersect_two_gap_lists cur n := by
  by_cases h : intersect_two_gap_lists cur n = [] <;> simp [mutual_fold, h]

/-- `mutual_fold` over two remaining lists is the two-step fold. -/
lemma mutual_fold_pair (x y z : List Gap) :
    mutual_fold x [y, z] =
      intersect_two_gap_lists (intersect_two_gap_lists x y) z := by
  by_cases h : intersect_two_gap_lists x y = []
  · simp [mutual_fold, h, intersect_two_nil_left]
  · simp only [mutual_fold, h, if_neg, ite_false]
    exact mutual_fold_single _ _

/-! ## Normalizer lemmas -/

/-- An item whose day or either time fails to parse yields no record. -/
lemma item_to_event_eq_none {item : RawItem}
    (h : day_map item.DAY = none ∨ item.TIME_FROM_ISO.bind parse_iso_time = none ∨
         item.TIME_TO_ISO.bind parse_iso_time = none) :
    item_to_event item = none := by
  unfold item_to_event
  cases hd : day_map item.DAY with
  | none => rfl
  | some d =>
    cases hs : item.TIME_FROM_ISO.bind parse_iso_time with
    | none => rfl
    | some s =>
      cases he : item.TIME_TO_ISO.bind parse_iso_time with
      | none => rfl
      | some e =>
        rcases h with h | h | h
        · rw [h] at hd; exact Option.noConfusion hd
        · rw [h] at hs; exact Option.noConfusion hs
        · rw [h] at he; exact Option.noConfusion he

/-- The record built from an item whose day and times parse. -/
lemma item_to_event_eq_some {item : RawItem} {d : String} {s e : ℚ}
    (hd : day_map item.DAY = some d)
    (hs : item.TIME_FROM_ISO.bind parse_iso_time = some s)
    (he : item.TIME_TO_ISO.bind parse_iso_time = some e) :
    item_to_event item =
      some { day := d, start := s, «end» := e, duration := e - s,
             subject := item.MODULE_NAME.getD (item.MODID.getD "Unknown"),
             type := class_type_of (item.MODID.getD ""),
             location := item.ROOM.getD (item.LOCATION.getD "Unknown"),
             is_gap := false } := by
  simp [item_to_event, hd, hs, he]

/-- Every record the normalizer emits carries `duration = end - start`. -/
lemma item_to_event_duration {item : RawItem} {e : Event}
    (h : item_to_event item = some e) : e.duration = e.«end» - e.start := by
  unfold item_to_event at h
  cases h1 : day_map item.DAY <;> rw [h1] at h
  case none => exact Option.noConfusion h
  case some d =>
    cases h2 : item.TIME_FROM_ISO.bind parse_iso_time <;> rw [h2] at h
    case none => exact Option.noConfusion h
    case some s =>
      cases h3 : item.TIME_TO_ISO.bind parse_iso_time <;> rw [h3] at h
      case none => exact Option.noConfusion h
      case some t =>
        rw [Option.some.injEq] at h
        rw [← h]

/-! ## Claim theorems -/

/-- C1: for a person whose only busy intervals on a day are (9, 10) and
(10, 11.5), under the 8-to-20 day window, `calculate_gaps` returns exactly
one gap for that day, namely (8, 9): the back-to-back pair (9,10),(10,11.5)
produces no internal gap, and no trailing gap from 11.5 to 20 is emitted. -/
theorem c1_back_to_back_gap (d : String) (hd : d ∈ DAYS_OF_WEEK) :
    calculate_gaps [busy d 9 10, busy d 10 (11.5 : ℚ)] = [gapRec d 8 9] := by
  simp only [DAYS_OF_WEEK, List.mem_cons, List.not_mem_nil, or_false] at hd
  rcases hd with rfl | rfl | rfl | rfl | rfl <;> with_unfolding_all rfl

/-- C1 witness: the theorem instantiated on Monday. -/
theorem c1_back_to_back_gap_witness :
    "Mon" ∈ DAYS_OF_WEEK ∧
    calculate_gaps [busy "Mon" 9 10, busy "Mon" 10 (11.5 : ℚ)] = [gapRec "Mon" 8 9] :=
  ⟨by simp [DAYS_OF_WEEK], c1_back_to_back_gap "Mon" (by simp [DAYS_OF_WEEK])⟩

/-- C3: the two-person scenario — A busy Mon 9-10.5 and Mon 13-14, B busy
Mon 9.5-11 and Mon 12.5-13.5 — gives A the Monday gaps [(8,9),(10.5,13)],
B the Monday gaps [(8,9.5),(11,12.5)], and mutual gaps
[(Mon,8,9),(Mon,11,12.5)]. -/
theorem c3_scenario :
    calculate_gaps [busy "Mon" 9 (10.5 : ℚ), busy "Mon" 13 14] =
      [gapRec "Mon" 8 9, gapRec "Mon" (10.5 : ℚ) 13] ∧
    calculate_gaps [busy "Mon" (9.5 : ℚ) 11, busy "Mon" (12.5 : ℚ) (13.5 : ℚ)] =
      [gapRec "Mon" 8 (9.5 : ℚ), gapRec "Mon" 11 (12.5 : ℚ)] ∧
    find_mutual_gaps
        [calculate_gaps [busy "Mon" 9 (10.5 : ℚ), busy "Mon" 13 14],
         calculate_gaps [busy "Mon" (9.5 : ℚ) 11, busy "Mon" (12.5 : ℚ) (13.5 : ℚ)]] =
      [mutualRec "Mon" 8 9, mutualRec "Mon" 11 (12.5 : ℚ)] := by
  refine ⟨?_, ?_, ?_⟩ <;> with_unfolding_all rfl

/-- C4: both duration thresholds are inclusive — a candidate personal gap of
exactly 0.25 h is kept while 0.24 h is dropped, and a mutual intersection of
exactly 0.5 h is kept while 0.499 h is dropped. -/
theorem c4_threshold_boundaries :
    calculate_gaps [busy "Mon" (8.25 : ℚ) 9] = [gapRec "Mon" 8 (8.25 : ℚ)] ∧
    calculate_gaps [busy "Mon" (8.24 : ℚ) 9] = [] ∧
    intersect_two_gap_lists [gapRec "Mon" 8 9] [gapRec "Mon" 8 (8.5 : ℚ)] =
      [mutualRec "Mon" 8 (8.5 : ℚ)] ∧
    intersect_two_gap_lists [gapRec "Mon" 8 9] [gapRec "Mon" 8 (8.499 : ℚ)] = [] := by
  refine ⟨?_, ?_, ?_, ?_⟩ <;> with_unfolding_all rfl

/-- A raw record matching the selection whose times parse to start 10.0 and
end 9.0 (start ≥ end). -/
def nonChronItem : RawItem :=
  { INTAKE := some "I", GROUPING := some "G", DAY := some "MON",
    TIME_FROM_ISO := some "2025-01-06T10:00:00",
    TIME_TO_ISO := some "2025-01-06T09:00:00",
    MODULE_NAME := some "Sub", MODID := some "M1", ROOM := some "R",
    LOCATION := none }

/-- C5 counterexample: the normalizer does NOT drop a record whose parsed
start is not strictly less than its parsed end — for `nonChronItem`
(start 10.0, end 9.0) a `BusyInterval` does appear in the output. -/
theorem c5_counterexample :
    process_s3_schedule [nonChronItem] "I" "G" none =
      some [{ day := "Mon", start := 10, «end» := 9, duration := -1,
              subject := "Sub", type := "Class", location := "R",
              is_gap := false }] ∧
    ¬ ((10 : ℚ) < 9) := by
  constructor
  · with_unfolding_all rfl
  · norm_num

/-- C5 amended: the normalizer drops a record only when its day token or one
of its timestamps fails to parse; any record that matches the selection and
parses is normalized into the output, even when its parsed start is not
strictly less than its parsed end. -/
theorem c5_kept_when_parsed (data : List RawItem) (i g : String) (item : RawItem)
    (d : String) (s e : ℚ) (hmem : item ∈ data)
    (hi : item.INTAKE = some i) (hg : item.GROUPING = some g)
    (hd : day_map item.DAY = some d)
    (hs : item.TIME_FROM_ISO.bind parse_iso_time = some s)
    (he : item.TIME_TO_ISO.bind parse_iso_time = some e) :
    ∃ l, process_s3_schedule data i g none = some l ∧
      { day := d, start := s, «end» := e, duration := e - s,
        subject := item.MODULE_NAME.getD (item.MODID.getD "Unknown"),
        type := class_type_of (item.MODID.getD ""),
        location := item.ROOM.getD (item.LOCATION.getD "Unknown"),
        is_gap := false } ∈ l := by
  refine ⟨_, rfl, ?_⟩
  rw [List.mem_filterMap]
  refine ⟨item, ?_, item_to_event_eq_some hd hs he⟩
  rw [List.mem_filter]
  exact ⟨hmem, by simp [matches_selection, hi, hg]⟩

/-- C5 witness: `c5_kept_when_parsed` applied to `nonChronItem`, whose parsed
start 10.0 exceeds its parsed end 9.0, yet which lands in the output. -/
theorem c5_kept_when_parsed_witness :
    nonChronItem ∈ [nonChronItem] ∧
    nonChronItem.INTAKE = some "I" ∧ nonChronItem.GROUPING = some "G" ∧
    day_map nonChronItem.DAY = some "Mon" ∧
    nonChronItem.TIME_FROM_ISO.bind parse_iso_time = some 10 ∧
    nonChronItem.TIME_TO_ISO.bind parse_iso_time = some 9 ∧
    ∃ l, process_s3_schedule [nonChronItem] "I" "G" none = some l ∧
      { day := "Mon", start := (10 : ℚ), «end» := (9 : ℚ), duration := 9 - 10,
        subject := nonChronItem.MODULE_NAME.getD (nonChronItem.MODID.getD "Unknown"),
        type := class_type_of (nonChronItem.MODID.getD ""),
        location := nonChronItem.ROOM.getD (nonChronItem.LOCATION.getD "Unknown"),
        is_gap := false } ∈ l :=
  ⟨by simp, rfl, rfl, rfl, by with_unfolding_all rfl, by with_unfolding_all rfl,
    c5_kept_when_parsed [nonChronItem] "I" "G" nonChronItem "Mon" 10 9 (by simp)
      rfl rfl rfl (by with_unfolding_all rfl) (by with_unfolding_all rfl)⟩

/-- C6 counterexample: with a single gap list, `find_mutual_gaps` does not
reinterpret the records as mutual intervals — the returned record still has
`is_mutual = false` and type `"Gap"` (and no `participant_count` field
exists on any record). -/
theorem c6_counterexample :
    ¬ (∀ m ∈ find_mutual_gaps [[gapRec "Mon" 8 9]],
        m.is_mutual = true ∧ m.type = "Mutual") := by
  intro h
  have hm := h (gapRec "Mon" 8 9) (by simp [find_mutual_gaps, mutual_fold])
  simp [gapRec] at hm

/-- C6 amended: with exactly one gap list, `find_mutual_gaps` returns that
list itself unchanged (no failure, but also no reinterpretation: the records
keep their `Gap` type and `is_mutual = false`, and no participant count is
attached). -/
theorem c6_single_list_identity (l : List Gap) : find_mutual_gaps [l] = l := rfl

/-- A raw record matching the selection whose day token is unrecognized. -/
def badDayItem : RawItem :=
  { INTAKE := some "I", GROUPING := some "G", DAY := some "SUN",
    TIME_FROM_ISO := some "2025-01-05T10:00:00",
    TIME_TO_ISO := some "2025-01-05T11:00:00",
    MODULE_NAME := some "Sub", MODID := some "M1", ROOM := some "R",
    LOCATION := none }

/-- A raw record matching the selection with no parsable start time. -/
def badTimeItem : RawItem :=
  { INTAKE := some "I", GROUPING := some "G", DAY := some "MON",
    TIME_FROM_ISO := none, TIME_TO_ISO := some "2025-01-06T11:00:00",
    MODULE_NAME := some "Sub", MODID := some "M1", ROOM := some "R",
    LOCATION := none }

/-- C7 counterexample: the normalizer returns no skipped-record count — a
batch with one malformed record and a batch with two malformed records
produce identical return values (`some []`), so the number of skipped
records (1 vs 2) is not part of the result. -/
theorem c7_counterexample :
    process_s3_schedule [badDayItem] "I" "G" none =
      process_s3_schedule [badDayItem, badTimeItem] "I" "G" none ∧
    process_s3_schedule [badDayItem] "I" "G" none = some [] := by
  constructor <;> with_unfolding_all rfl

/-- C7 amended: the normalizer never raises for a malformed record — a record
whose day or times fail to parse is silently skipped, leaving the result for
the remaining records unchanged — but it returns only the normalized
schedule, with no skipped-record count. -/
theorem c7_malformed_skipped (data : List RawItem) (i g : String) (bad : RawItem)
    (hbad : day_map bad.DAY = none ∨ bad.TIME_FROM_ISO.bind parse_iso_time = none ∨
            bad.TIME_TO_ISO.bind parse_iso_time = none) :
    process_s3_schedule (bad :: data) i g none = process_s3_schedule data i g none ∧
    (process_s3_schedule data i g none).isSome = true := by
  refine ⟨?_, rfl⟩
  simp only [process_s3_schedule, Option.some.injEq, List.filter_cons]
  split
  · rw [List.filterMap_cons, item_to_event_eq_none hbad]
  · rfl

/-- C7 witness: `c7_malformed_skipped` applied to `badTimeItem` in front of a
singleton batch. -/
theorem c7_malformed_skipped_witness :
    (day_map badTimeItem.DAY = none ∨
     badTimeItem.TIME_FROM_ISO.bind parse_iso_time = none ∨
     badTimeItem.TIME_TO_ISO.bind parse_iso_time = none) ∧
    process_s3_schedule [badTimeItem, badDayItem] "I" "G" none =
      process_s3_schedule [badDayItem] "I" "G" none ∧
    (process_s3_schedule [badDayItem] "I" "G" none).isSome = true :=
  ⟨Or.inr (Or.inl rfl),
    c7_malformed_skipped [badDayItem] "I" "G" badTimeItem (Or.inr (Or.inl rfl))⟩

/-- C9: every record produced by the core pipeline — schedule records from
the normalizer, gap records from the gap calculator, and mutual records from
the pairwise intersector — satisfies `duration = end - start` at
construction. -/
theorem c9_duration_invariant :
    (∀ (data : List RawItem) (i g : String) (w : Option String) (l : List Event),
      process_s3_schedule data i g w = some l →
        ∀ e ∈ l, e.duration = e.«end» - e.start) ∧
    (∀ (schedule : List Event), ∀ gp ∈ calculate_gaps schedule,
      gp.duration = gp.«end» - gp.start) ∧
    (∀ (l1 l2 : List Gap), ∀ m ∈ intersect_two_gap_lists l1 l2,
      m.duration = m.«end» - m.start) := by
  refine ⟨?_, ?_, ?_⟩
  · intro data i g w l hl e he
    cases w with
    | none =>
      simp only [process_s3_schedule, Option.some.injEq] at hl
      subst hl
      obtain ⟨a, -, ha⟩ := List.mem_filterMap.1 he
      exact item_to_event_duration ha
    | some wstr =>
      simp only [process_s3_schedule] at hl
      cases hs : strptime_date wstr <;> rw [hs] at hl
      case none => exact Option.noConfusion hl
      case some ws =>
        rw [Option.some.injEq] at hl
        subst hl
        obtain ⟨a, -, ha⟩ := List.mem_filterMap.1 he
        exact item_to_event_duration ha
  · intro schedule gp hgp
    obtain ⟨d, -, hmem⟩ := mem_calculate_gaps.1 hgp
    obtain ⟨c, t, rfl, -⟩ := mem_sweep_day hmem
    rfl
  · intro l1 l2 m hm
    obtain ⟨g1, -, g2, -, hp⟩ := mem_intersect_two.1 hm
    obtain ⟨-, -, rfl⟩ := intersect_pair_eq_some.1 hp
    rfl

/-- C9 witness: the invariant read off at one concrete record of each kind. -/
theorem c9_duration_invariant_witness :
    ({ day := "Mon", start := 10, «end» := 9, duration := -1, subject := "Sub",
       type := "Class", location := "R", is_gap := false } : Event).duration =
      ({ day := "Mon", start := 10, «end» := 9, duration := -1, subject := "Sub",
         type := "Class", location := "R", is_gap := false } : Event).«end» -
        ({ day := "Mon", start := 10, «end» := 9, duration := -1, subject := "Sub",
           type := "Class", location := "R", is_gap := false } : Event).start ∧
    (gapRec "Tue" 8 9).duration = (gapRec "Tue" 8 9).«end» - (gapRec "Tue" 8 9).start ∧
    (mutualRec "Wed" 8 9).duration =
      (mutualRec "Wed" 8 9).«end» - (mutualRec "Wed" 8 9).start :=
  ⟨c9_duration_invariant.1 [nonChronItem] "I" "G" none _
      (by with_unfolding_all rfl) _ (List.mem_singleton_self _),
   c9_duration_invariant.2.1 [busy "Tue" 9 10] (gapRec "Tue" 8 9)
      (by rw [show calculate_gaps [busy "Tue" 9 10] = [gapRec "Tue" 8 9] from
            by with_unfolding_all rfl]
          exact List.mem_singleton_self _),
   c9_duration_invariant.2.2 [gapRec "Wed" 8 9] [gapRec "Wed" 8 9] (mutualRec "Wed" 8 9)
      (by rw [show intersect_two_gap_lists [gapRec "Wed" 8 9] [gapRec "Wed" 8 9] =
              [mutualRec "Wed" 8 9] from by with_unfolding_all rfl]
          exact List.mem_singleton_self _)⟩

/-- Every output of the fold loop (when at least one intersection step runs)
is covered by some gap of the running list and of every remaining list, and
is at least 0.5 h long. -/
lemma mutual_fold_covers :
    ∀ (ns : List (List Gap)) (cur : List Gap) (m : Gap),
      m ∈ mutual_fold cur ns → ns ≠ [] →
      (∃ c ∈ cur, c.day = m.day ∧ c.start ≤ m.start ∧ m.«end» ≤ c.«end») ∧
      (∀ L ∈ ns, ∃ g ∈ L, g.day = m.day ∧ g.start ≤ m.start ∧ m.«end» ≤ g.«end») ∧
      (0.5 : ℚ) ≤ m.«end» - m.start := by
  intro ns
  induction ns with
  | nil => intro cur m _ hne; exact absurd rfl hne
  | cons n rest ih =>
    intro cur m hm _
    simp only [mutual_fold] at hm
    by_cases hc : intersect_two_gap_lists cur n = []
    · rw [if_pos hc, hc] at hm
      exact absurd hm (List.not_mem_nil m)
    · rw [if_neg hc] at hm
      cases rest with
      | nil =>
        simp only [mutual_fold] at hm
        obtain ⟨g1, hg1, g2, hg2, hp⟩ := mem_intersect_two.1 hm
        obtain ⟨h1, h2, hdur⟩ := intersect_pair_covers hp
        refine ⟨⟨g1, hg1, h1⟩, ?_, hdur⟩
        intro L hL
        rcases List.mem_cons.1 hL with rfl | hL'
        · exact ⟨g2, hg2, h2⟩
        · exact absurd hL' (List.not_mem_nil L)
      | cons n2 rest2 =>
        obtain ⟨⟨c, hcmem, hcd, hcs, hce⟩, hall, hdur⟩ :=
          ih (intersect_two_gap_lists cur n) m hm (by simp)
        obtain ⟨g1, hg1, g2, hg2, hp⟩ := mem_intersect_two.1 hcmem
        obtain ⟨h1, h2, -⟩ := intersect_pair_covers hp
        refine ⟨⟨g1, hg1, h1.1.trans hcd, h1.2.1.trans hcs, hce.trans h1.2.2⟩, ?_, hdur⟩
        intro L hL
        rcases List.mem_cons.1 hL with rfl | hL'
        · exact ⟨g2, hg2, h2.1.trans hcd, h2.2.1.trans hcs, hce.trans h2.2.2⟩
        · exact hall L hL'

/-- C10: when at least two gap lists are intersected, every mutual record is
contained — same day, within the time bounds — in some gap of every input
list, and in particular satisfies `start < end`. -/
theorem c10_mutual_contained (Ls : List (List Gap)) (h2 : 2 ≤ Ls.length) :
    ∀ m ∈ find_mutual_gaps Ls,
      (∀ L ∈ Ls, ∃ g ∈ L, g.day = m.day ∧ g.start ≤ m.start ∧ m.«end» ≤ g.«end») ∧
      m.start < m.«end» := by
  intro m hm
  match Ls, h2 with
  | L1 :: n :: rest, _ =>
    have hmm : m ∈ mutual_fold L1 (n :: rest) := hm
    obtain ⟨⟨c, hc, hcov⟩, hall, hdur⟩ :=
      mutual_fold_covers (n :: rest) L1 m hmm (by simp)
    constructor
    · intro L hL
      rcases List.mem_cons.1 hL with rfl | hL'
      · exact ⟨c, hc, hcov⟩
      · exact hall L hL'
    · linarith

/-- C10 witness: the containment read off for two concrete singleton lists. -/
theorem c10_mutual_contained_witness :
    2 ≤ ([[gapRec "Mon" 8 9], [gapRec "Mon" 8 (8.5 : ℚ)]] : List (List Gap)).length ∧
    ∀ m ∈ find_mutual_gaps [[gapRec "Mon" 8 9], [gapRec "Mon" 8 (8.5 : ℚ)]],
      (∀ L ∈ [[gapRec "Mon" 8 9], [gapRec "Mon" 8 (8.5 : ℚ)]],
        ∃ g ∈ L, g.day = m.day ∧ g.start ≤ m.start ∧ m.«end» ≤ g.«end») ∧
      m.start < m.«end» :=
  ⟨by simp,
    c10_mutual_contained [[gapRec "Mon" 8 9], [gapRec "Mon" 8 (8.5 : ℚ)]] (by simp)⟩

/-! ## Quarter-hour durations and the label decomposition (C8)

On general whole-minute times the float minutes product
`(duration % 1) * 60` lands just below an integer for about half of the
reachable durations, and `int()` truncates it one minute low — the claimed
floor/round decomposition is false of the program (see
`c8_float_counterexample`).  On quarter-hour times every value and
difference in the chain is a low-bit dyadic, so the binary64 arithmetic is
exact and the decomposition does hold (see `c8_label_quarter_hours`). -/

/-- A rational that is a whole number of quarter hours.  For schedules with
quarter-hour times, every float the pipeline computes is exactly this
rational: `m/60` for `m ∈ {0, 15, 30, 45}`, `hour + m/60`, and all their
differences, maxima, and minima are dyadics of at most a few dozen
significand bits, so each `fl` in the chain is the identity. -/
def QuarterHour (q : ℚ) : Prop := ∃ k : ℤ, q = k / 4

lemma quarterHour_sub {a b : ℚ} (ha : QuarterHour a) (hb : QuarterHour b) :
    QuarterHour (a - b) := by
  obtain ⟨k, rfl⟩ := ha
  obtain ⟨l, rfl⟩ := hb
  exact ⟨k - l, by push_cast; ring⟩

lemma quarterHour_max {a b : ℚ} (ha : QuarterHour a) (hb : QuarterHour b) :
    QuarterHour (max a b) := by
  rcases le_total a b with h | h
  · rw [max_eq_right h]; exact hb
  · rw [max_eq_left h]; exact ha

lemma quarterHour_min {a b : ℚ} (ha : QuarterHour a) (hb : QuarterHour b) :
    QuarterHour (min a b) := by
  rcases le_total a b with h | h
  · rw [min_eq_left h]; exact ha
  · rw [min_eq_right h]; exact hb

/-- All gap bounds produced by the sweep are quarter-hour values whenever the
cursor and the event times are. -/
lemma sweep_day_quarterHour {day : String} {l : List Event} :
    ∀ {cur : ℚ}, QuarterHour cur →
      (∀ e ∈ l, QuarterHour e.start ∧ QuarterHour e.«end») →
      ∀ g ∈ sweep_day day cur l, QuarterHour g.start ∧ QuarterHour g.«end» := by
  induction l with
  | nil => intro cur _ _ g hg; simp [sweep_day] at hg
  | cons e rest ih =>
    intro cur hcur hl g hg
    simp only [sweep_day] at hg
    rcases List.mem_append.1 hg with h | h
    · split_ifs at h with ha hb
      · simp only [List.mem_singleton] at h
        subst h
        exact ⟨hcur, (hl e (List.mem_cons_self e rest)).1⟩
      · simp at h
      · simp at h
    · exact ih (quarterHour_max hcur (hl e (List.mem_cons_self e rest)).2)
        (fun e' he' => hl e' (List.mem_cons_of_mem e he')) g h

/-- All gap bounds of `calculate_gaps` are quarter-hour values whenever the
schedule's event times are. -/
lemma calculate_gaps_quarterHour {schedule : List Event}
    (h : ∀ e ∈ schedule, QuarterHour e.start ∧ QuarterHour e.«end») :
    ∀ g ∈ calculate_gaps schedule, QuarterHour g.start ∧ QuarterHour g.«end» := by
  intro g hg
  obtain ⟨d, -, hmem⟩ := mem_calculate_gaps.1 hg
  refine sweep_day_quarterHour ⟨32, by norm_num⟩ ?_ g hmem
  intro e he
  have he' : e ∈ schedule.filter (fun e => e.day == d) :=
    ((List.perm_insertionSort _ _).mem_iff).1 he
  exact h e (List.mem_filter.1 he').1

lemma pyInt_intCast (z : ℤ) : pyInt (z : ℚ) = z := by
  unfold pyInt
  split_ifs with h
  · rw [show -((z : ℚ)) = ((-z : ℤ) : ℚ) by push_cast; ring, Int.floor_intCast]
    ring
  · exact Int.floor_intCast z

/-- On nonnegative values, Python's `int()` truncation is the floor. -/
lemma pyInt_eq_floor {q : ℚ} (h : 0 ≤ q) : pyInt q = ⌊q⌋ := if_neg (not_lt.2 h)

/-- On quarter-hour durations, the code's float minutes count
`int(fl((d % 1) * 60))` agrees with the spec's rounded one
`round((d - floor d) * 60)`: the fractional part times 60 is exactly one of
0, 15, 30, 45, on which `fl` is the identity and truncation is rounding. -/
lemma quarter_minutes {d : ℚ} (hq : QuarterHour d) :
    pyInt (fmul (pyMod1 d) 60) = round ((d - ⌊d⌋) * 60) := by
  obtain ⟨k, rfl⟩ := hq
  have hfrac : pyMod1 ((k : ℚ) / 4) = ((k - 4 * ⌊(k : ℚ) / 4⌋ : ℤ) : ℚ) / 4 := by
    unfold pyMod1
    push_cast
    ring
  have hb0 : (0 : ℚ) ≤ pyMod1 ((k : ℚ) / 4) := by
    unfold pyMod1
    have := Int.floor_le ((k : ℚ) / 4)
    linarith
  have hb1 : pyMod1 ((k : ℚ) / 4) < 1 := by
    unfold pyMod1
    have := Int.lt_floor_add_one ((k : ℚ) / 4)
    linarith
  have hj0 : 0 ≤ k - 4 * ⌊(k : ℚ) / 4⌋ := by
    rw [hfrac] at hb0
    have h4 : (0 : ℚ) ≤ ((k - 4 * ⌊(k : ℚ) / 4⌋ : ℤ) : ℚ) := by linarith
    exact_mod_cast h4
  have hj4 : k - 4 * ⌊(k : ℚ) / 4⌋ < 4 := by
    rw [hfrac] at hb1
    have h4 : ((k - 4 * ⌊(k : ℚ) / 4⌋ : ℤ) : ℚ) < 4 := by linarith
    exact_mod_cast h4
  have hmul : pyMod1 ((k : ℚ) / 4) * 60 =
      ((15 * (k - 4 * ⌊(k : ℚ) / 4⌋) : ℤ) : ℚ) := by
    rw [hfrac]
    push_cast
    ring
  have hround : round (((k : ℚ) / 4 - (⌊(k : ℚ) / 4⌋ : ℚ)) * 60) =
      15 * (k - 4 * ⌊(k : ℚ) / 4⌋) := by
    rw [show ((k : ℚ) / 4 - (⌊(k : ℚ) / 4⌋ : ℚ)) * 60 =
          pyMod1 ((k : ℚ) / 4) * 60 from rfl, hmul, round_intCast]
  rw [hround]
  unfold fmul
  rw [hmul]
  set j := k - 4 * ⌊(k : ℚ) / 4⌋ with hjdef
  interval_cases j <;> with_unfolding_all rfl

/-- C8 counterexample: the float formatter does not compute the claimed
floor/round decomposition.  A class starting Mon 08:21 parses to the double
`8 + 21/60`; the sweep's gap from the 8.0 cursor to it has binary64 duration
0.34999999999999964…, which passes the 0.25 threshold, and the code renders
`"0h 20m Gap"` — while `hours = floor(duration) = 0` and
`round((duration - hours) * 60) = 21`, so the claimed label would be
`"0h 21m Gap"`. -/
theorem c8_float_counterexample :
    (0.25 : ℚ) ≤ gap_duration_fp 8 (parse_time_fp 8 21) ∧
    break_duration_html
        { day := "Mon", start := 8, «end» := parse_time_fp 8 21,
          duration := gap_duration_fp 8 (parse_time_fp 8 21), subject := "Gap",
          type := "Gap", is_gap := true, is_mutual := false } =
      "<div class=\"break-duration\">0h 20m Gap</div>" ∧
    ⌊gap_duration_fp 8 (parse_time_fp 8 21)⌋ = 0 ∧
    round ((gap_duration_fp 8 (parse_time_fp 8 21) -
      (⌊gap_duration_fp 8 (parse_time_fp 8 21)⌋ : ℚ)) * 60) = 21 ∧
    break_duration_html
        { day := "Mon", start := 8, «end» := parse_time_fp 8 21,
          duration := gap_duration_fp 8 (parse_time_fp 8 21), subject := "Gap",
          type := "Gap", is_gap := true, is_mutual := false } ≠
      "<div class=\"break-duration\">0h 21m Gap</div>" := by
  have hd : gap_duration_fp 8 (parse_time_fp 8 21) =
      197032483697459 / 562949953421312 := by
    unfold gap_duration_fp parse_time_fp
    rw [show fdiv 21 60 = 3152519739159347 / 9007199254740992 from by
      with_unfolding_all rfl]
    rw [show fadd 8 (3152519739159347 / 9007199254740992 : ℚ) =
          4700632111067955 / 562949953421312 from by with_unfolding_all rfl]
    with_unfolding_all rfl
  have hfl : ⌊(197032483697459 / 562949953421312 : ℚ)⌋ = 0 := by
    rw [Int.floor_eq_iff]
    norm_num
  have hlabel : break_duration_html
      { day := "Mon", start := 8, «end» := parse_time_fp 8 21,
        duration := gap_duration_fp 8 (parse_time_fp 8 21), subject := "Gap",
        type := "Gap", is_gap := true, is_mutual := false } =
      "<div class=\"break-duration\">0h 20m Gap</div>" := by
    rw [hd]
    with_unfolding_all rfl
  refine ⟨?_, hlabel, ?_, ?_, ?_⟩
  · rw [hd]
    norm_num
  · rw [hd]
    exact hfl
  · rw [hd, hfl]
    rw [round_eq, Int.floor_eq_iff]
    push_cast
    norm_num
  · rw [hlabel]
    decide

/-- C8 amended: for every gap and mutual record (from schedules with
quarter-hour event times, on which the binary64 arithmetic is exact), the
rendered duration label is the spec's decomposition
`hours = floor(duration)`, `minutes = round((duration - hours) * 60)` — as
`"{H}h {M}m Gap"` for gaps, with the distinct `⚡ MUTUAL:` marker for mutual
records.  On general times the minute count is instead the binary64
truncation, which can come out one minute lower. -/
theorem c8_label_quarter_hours (s1 s2 : List Event)
    (h1 : ∀ e ∈ s1, QuarterHour e.start ∧ QuarterHour e.«end»)
    (h2 : ∀ e ∈ s2, QuarterHour e.start ∧ QuarterHour e.«end») :
    (∀ gp ∈ calculate_gaps s1,
      break_duration_html gp =
        "<div class=\"break-duration\">" ++ toString ⌊gp.duration⌋ ++ "h " ++
          toString (round ((gp.duration - ⌊gp.duration⌋) * 60)) ++ "m Gap</div>") ∧
    (∀ m ∈ intersect_two_gap_lists (calculate_gaps s1) (calculate_gaps s2),
      break_duration_html m =
        "<div class=\"break-duration\">⚡ MUTUAL: " ++ toString ⌊m.duration⌋ ++ "h " ++
          toString (round ((m.duration - ⌊m.duration⌋) * 60)) ++ "m</div>") := by
  constructor
  · intro gp hgp
    have hW := calculate_gaps_quarterHour h1 gp hgp
    obtain ⟨d, -, hmem⟩ := mem_calculate_gaps.1 hgp
    obtain ⟨c, t, rfl, hdur⟩ := mem_sweep_day hmem
    have h0 : (0 : ℚ) ≤ (gapRec d c t).duration := by
      simp only [gapRec]; linarith
    have hwm : QuarterHour ((gapRec d c t).duration) :=
      quarterHour_sub hW.2 hW.1
    unfold break_duration_html
    rw [if_neg (by with_unfolding_all exact Bool.false_ne_true)]
    rw [pyInt_eq_floor h0, quarter_minutes hwm]
  · intro m hm
    obtain ⟨g1, hg1, g2, hg2, hp⟩ := mem_intersect_two.1 hm
    have hw1 := calculate_gaps_quarterHour h1 g1 hg1
    have hw2 := calculate_gaps_quarterHour h2 g2 hg2
    obtain ⟨hd, hdge, rfl⟩ := intersect_pair_eq_some.1 hp
    have h0 : (0 : ℚ) ≤
        (mutualRec g1.day (max g1.start g2.start) (min g1.«end» g2.«end»)).duration := by
      simp only [mutualRec]; linarith
    have hwm : QuarterHour
        ((mutualRec g1.day (max g1.start g2.start) (min g1.«end» g2.«end»)).duration) :=
      quarterHour_sub (quarterHour_min hw1.2 hw2.2) (quarterHour_max hw1.1 hw2.1)
    unfold break_duration_html
    rw [if_pos (by with_unfolding_all rfl)]
    rw [pyInt_eq_floor h0, quarter_minutes hwm]

/-- C8 witness: the label equalities read off for one concrete quarter-hour
schedule pair (gap 8-9.25 for person 1; mutual 8-8.75 across both). -/
theorem c8_label_quarter_hours_witness :
    (∀ e ∈ [busy "Mon" (9.25 : ℚ) 10], QuarterHour e.start ∧ QuarterHour e.«end») ∧
    (∀ e ∈ [busy "Mon" (8.75 : ℚ) 10], QuarterHour e.start ∧ QuarterHour e.«end») ∧
    ((∀ gp ∈ calculate_gaps [busy "Mon" (9.25 : ℚ) 10],
      break_duration_html gp =
        "<div class=\"break-duration\">" ++ toString ⌊gp.duration⌋ ++ "h " ++
          toString (round ((gp.duration - ⌊gp.duration⌋) * 60)) ++ "m Gap</div>") ∧
    (∀ m ∈ intersect_two_gap_lists (calculate_gaps [busy "Mon" (9.25 : ℚ) 10])
        (calculate_gaps [busy "Mon" (8.75 : ℚ) 10]),
      break_duration_html m =
        "<div class=\"break-duration\">⚡ MUTUAL: " ++ toString ⌊m.duration⌋ ++ "h " ++
          toString (round ((m.duration - ⌊m.duration⌋) * 60)) ++ "m</div>")) := by
  have hA : ∀ e ∈ [busy "Mon" (9.25 : ℚ) 10],
      QuarterHour e.start ∧ QuarterHour e.«end» := by
    intro e he
    simp only [List.mem_singleton] at he
    subst he
    exact ⟨⟨37, by norm_num [busy]⟩, ⟨40, by norm_num [busy]⟩⟩
  have hB : ∀ e ∈ [busy "Mon" (8.75 : ℚ) 10],
      QuarterHour e.start ∧ QuarterHour e.«end» := by
    intro e he
    simp only [List.mem_singleton] at he
    subst he
    exact ⟨⟨35, by norm_num [busy]⟩, ⟨40, by norm_num [busy]⟩⟩
  exact ⟨hA, hB, c8_label_quarter_hours _ _ hA hB⟩

/-! ## Well-formed gap lists and order-independence of the N-way
intersection (C2) -/

/-- Position of a day in the canonical weekday order. -/
def dayIdx (d : String) : ℕ := DAYS_OF_WEEK.indexOf d

/-- Gap `a` precedes gap `b`: a strictly earlier day, or the same day with
`a` ending no later than `b` starts. -/
def gapRel (a b : Gap) : Prop :=
  dayIdx a.day < dayIdx b.day ∨ (a.day = b.day ∧ a.«end» ≤ b.start)

/-- A well-formed gap list, exactly the shape `calculate_gaps` produces:
weekday days, nonempty intervals, grouped by canonical day order with
per-day intervals sorted and non-overlapping. -/
def WFGaps (l : List Gap) : Prop :=
  (∀ g ∈ l, g.day ∈ DAYS_OF_WEEK ∧ g.start < g.«end») ∧ l.Pairwise gapRel

/-- Strict ordering of gaps by the key (day index, start time). -/
def keyLt (a b : Gap) : Prop :=
  dayIdx a.day < dayIdx b.day ∨ (dayIdx a.day = dayIdx b.day ∧ a.start < b.start)

lemma keyLt_asymm {a b : Gap} (h : keyLt a b) (h' : keyLt b a) : False := by
  rcases h with h | ⟨h1, h2⟩ <;> rcases h' with h' | ⟨h1', h2'⟩
  · omega
  · omega
  · omega
  · exact absurd h2' (not_lt.2 h2.le)

/-- Two lists that are strictly sorted by the same irreflexive key and have
the same members are equal. -/
lemma sorted_unique :
    ∀ {l₁ l₂ : List Gap}, l₁.Pairwise keyLt → l₂.Pairwise keyLt →
      (∀ x, x ∈ l₁ ↔ x ∈ l₂) → l₁ = l₂ := by
  intro l₁
  induction l₁ with
  | nil =>
    intro l₂ _ _ hiff
    cases l₂ with
    | nil => rfl
    | cons y t₂ => exact absurd ((hiff y).2 (List.mem_cons_self y t₂)) (List.not_mem_nil y)
  | cons x t ih =>
    intro l₂ h₁ h₂ hiff
    cases l₂ with
    | nil => exact absurd ((hiff x).1 (List.mem_cons_self x t)) (List.not_mem_nil x)
    | cons y t₂ =>
      have hxy : x = y := by
        rcases List.mem_cons.1 ((hiff x).1 (List.mem_cons_self x t)) with h | hxt2
        · exact h
        · rcases List.mem_cons.1 ((hiff y).2 (List.mem_cons_self y t₂)) with h' | hyt
          · exact h'.symm
          · exact absurd (List.rel_of_pairwise_cons h₂ hxt2)
              (fun k => keyLt_asymm (List.rel_of_pairwise_cons h₁ hyt) k)
      subst hxy
      have htails : ∀ z, z ∈ t ↔ z ∈ t₂ := by
        intro z
        constructor
        · intro hz
          rcases List.mem_cons.1 ((hiff z).1 (List.mem_cons_of_mem x hz)) with h | h
          · subst h; exact absurd (List.rel_of_pairwise_cons h₁ hz) (fun k => keyLt_asymm k k)
          · exact h
        · intro hz
          rcases List.mem_cons.1 ((hiff z).2 (List.mem_cons_of_mem x hz)) with h | h
          · subst h; exact absurd (List.rel_of_pairwise_cons h₂ hz) (fun k => keyLt_asymm k k)
          · exact h
      rw [ih (List.pairwise_cons.1 h₁).2 (List.pairwise_cons.1 h₂).2 htails]

/-- A well-formed list is strictly sorted by the (day, start) key. -/
lemma wf_pairwise_keyLt {l : List Gap} (h : WFGaps l) : l.Pairwise keyLt := by
  refine List.Pairwise.imp_of_mem ?_ h.2
  intro a b ha _ hr
  rcases hr with hlt | ⟨hday, hle⟩
  · exact Or.inl hlt
  · exact Or.inr ⟨by rw [hday], lt_of_lt_of_le (h.1 a ha).2 hle⟩

/-- Pairwise intersection preserves well-formedness. -/
lemma wf_intersect {X Y : List Gap} (hX : WFGaps X) (hY : WFGaps Y) :
    WFGaps (intersect_two_gap_lists X Y) := by
  constructor
  · intro m hm
    obtain ⟨g1, hg1, g2, hg2, hp⟩ := mem_intersect_two.1 hm
    obtain ⟨⟨hd1, -, -⟩, -, hdur⟩ := intersect_pair_covers hp
    exact ⟨hd1 ▸ (hX.1 g1 hg1).1, by linarith⟩
  · unfold intersect_two_gap_lists
    rw [List.pairwise_flatMap]
    constructor
    · intro g1 _
      refine List.Pairwise.filterMap _ ?_ hY.2
      intro a a' hr b hb b' hb'
      rw [Option.mem_def] at hb hb'
      obtain ⟨⟨h1d, -, -⟩, ⟨had, -, hae⟩, -⟩ := intersect_pair_covers hb
      obtain ⟨⟨h1d', -, -⟩, ⟨had', has', -⟩, -⟩ := intersect_pair_covers hb'
      have haa : a.day = a'.day := had.trans (h1d.symm.trans (h1d'.trans had'.symm))
      rcases hr with hlt | ⟨-, hle⟩
      · rw [haa] at hlt
        exact absurd hlt (lt_irrefl _)
      · exact Or.inr ⟨had.symm.trans (haa.trans had'), le_trans hae (le_trans hle has')⟩
    · refine List.Pairwise.imp ?_ hX.2
      intro g1 g1' hr x hx y hy
      rw [List.mem_filterMap] at hx hy
      obtain ⟨a, -, hpa⟩ := hx
      obtain ⟨a', -, hpa'⟩ := hy
      obtain ⟨⟨h1d, -, h1e⟩, -, -⟩ := intersect_pair_covers hpa
      obtain ⟨⟨h1d', h1s', -⟩, -, -⟩ := intersect_pair_covers hpa'
      rcases hr with hlt | ⟨hday, hle⟩
      · exact Or.inl (by rw [← h1d, ← h1d']; exact hlt)
      · exact Or.inr ⟨h1d.symm.trans (hday.trans h1d'), le_trans h1e (le_trans hle h1s')⟩

/-- The fully unfolded membership condition for a two-step fold over three
gap lists: a same-day triple whose three-way overlap lasts at least 0.5 h. -/
def Triple (A B C : List Gap) (m : Gap) : Prop :=
  ∃ a ∈ A, ∃ b ∈ B, ∃ c ∈ C,
    a.day = b.day ∧ a.day = c.day ∧
    (0.5 : ℚ) ≤ min (min a.«end» b.«end») c.«end» - max (max a.start b.start) c.start ∧
    m = mutualRec a.day (max (max a.start b.start) c.start)
          (min (min a.«end» b.«end») c.«end»)

/-- Membership in the two-step fold is exactly the `Triple` condition: the
intermediate ≥ 0.5 h filter never removes a surviving triple, because the
pairwise overlap contains the three-way overlap. -/
lemma mem_intersect3 {A B C : List Gap} {m : Gap} :
    m ∈ intersect_two_gap_lists (intersect_two_gap_lists A B) C ↔ Triple A B C m := by
  constructor
  · intro hm
    obtain ⟨r, hr, c, hc, hp⟩ := mem_intersect_two.1 hm
    obtain ⟨a, ha, b, hb, hpab⟩ := mem_intersect_two.1 hr
    obtain ⟨hdab, hdurab, rfl⟩ := intersect_pair_eq_some.1 hpab
    obtain ⟨hdrc, hdurrc, rfl⟩ := intersect_pair_eq_some.1 hp
    exact ⟨a, ha, b, hb, c, hc, hdab, hdrc, hdurrc, rfl⟩
  · rintro ⟨a, ha, b, hb, c, hc, hdab, hdac, hdur, rfl⟩
    have hdurab : (0.5 : ℚ) ≤ min a.«end» b.«end» - max a.start b.start := by
      have hmin : min (min a.«end» b.«end») c.«end» ≤ min a.«end» b.«end» :=
        min_le_left _ _
      have hmax : max a.start b.start ≤ max (max a.start b.start) c.start :=
        le_max_left _ _
      linarith
    exact mem_intersect_two.2
      ⟨mutualRec a.day (max a.start b.start) (min a.«end» b.«end»),
        mem_intersect_two.2 ⟨a, ha, b, hb, intersect_pair_eq_some.2 ⟨hdab, hdurab, rfl⟩⟩,
        c, hc, intersect_pair_eq_some.2 ⟨hdac, hdur, rfl⟩⟩

lemma max_rot (x y z : ℚ) : max (max z x) y = max (max x y) z := by
  rw [max_comm z x, max_assoc, max_comm z y, ← max_assoc]

lemma min_rot (x y z : ℚ) : min (min z x) y = min (min x y) z := by
  rw [min_comm z x, min_assoc, min_comm z y, ← min_assoc]

/-- Cyclic rotation of the three lists preserves the `Triple` condition. -/
lemma triple_rot_fwd {X Y Z : List Gap} {m : Gap} (h : Triple X Y Z m) :
    Triple Y Z X m := by
  obtain ⟨x, hx, y, hy, z, hz, hxy, hxz, hdur, rfl⟩ := h
  refine ⟨y, hy, z, hz, x, hx, hxy.symm.trans hxz, hxy.symm, ?_, ?_⟩
  · rw [max_rot y.start z.start x.start, min_rot y.«end» z.«end» x.«end»] at hdur
    exact hdur
  · rw [hxy, max_rot y.start z.start x.start, min_rot y.«end» z.«end» x.«end»]

lemma triple_rot {X Y Z : List Gap} {m : Gap} : Triple X Y Z m ↔ Triple Y Z X m :=
  ⟨triple_rot_fwd, fun h => triple_rot_fwd (triple_rot_fwd h)⟩

/-- C2: the N-way intersection is order-independent on well-formed inputs —
`find_mutual_gaps [A, B, C]` equals both `find_mutual_gaps [C, A, B]` and
`find_mutual_gaps [B, C, A]`. -/
theorem c2_order_independence (A B C : List Gap)
    (hA : WFGaps A) (hB : WFGaps B) (hC : WFGaps C) :
    find_mutual_gaps [A, B, C] = find_mutual_gaps [C, A, B] ∧
    find_mutual_gaps [A, B, C] = find_mutual_gaps [B, C, A] := by
  have e1 : find_mutual_gaps [A, B, C] =
      intersect_two_gap_lists (intersect_two_gap_lists A B) C := mutual_fold_pair A B C
  have e2 : find_mutual_gaps [C, A, B] =
      intersect_two_gap_lists (intersect_two_gap_lists C A) B := mutual_fold_pair C A B
  have e3 : find_mutual_gaps [B, C, A] =
      intersect_two_gap_lists (intersect_two_gap_lists B C) A := mutual_fold_pair B C A
  constructor
  · rw [e1, e2]
    refine sorted_unique (wf_pairwise_keyLt (wf_intersect (wf_intersect hA hB) hC))
      (wf_pairwise_keyLt (wf_intersect (wf_intersect hC hA) hB)) ?_
    intro x
    rw [mem_intersect3, mem_intersect3]
    exact triple_rot.trans triple_rot
  · rw [e1, e3]
    refine sorted_unique (wf_pairwise_keyLt (wf_intersect (wf_intersect hA hB) hC))
      (wf_pairwise_keyLt (wf_intersect (wf_intersect hB hC) hA)) ?_
    intro x
    rw [mem_intersect3, mem_intersect3]
    exact triple_rot

/-- C2 witness: the order-independence read off for three concrete
well-formed singleton gap lists. -/
theorem c2_order_independence_witness :
    WFGaps [gapRec "Mon" 8 9] ∧ WFGaps [gapRec "Mon" (8.5 : ℚ) 10] ∧
    WFGaps [gapRec "Mon" 8 (9.5 : ℚ)] ∧
    (find_mutual_gaps [[gapRec "Mon" 8 9], [gapRec "Mon" (8.5 : ℚ) 10],
        [gapRec "Mon" 8 (9.5 : ℚ)]] =
      find_mutual_gaps [[gapRec "Mon" 8 (9.5 : ℚ)], [gapRec "Mon" 8 9],
        [gapRec "Mon" (8.5 : ℚ) 10]] ∧
     find_mutual_gaps [[gapRec "Mon" 8 9], [gapRec "Mon" (8.5 : ℚ) 10],
        [gapRec "Mon" 8 (9.5 : ℚ)]] =
      find_mutual_gaps [[gapRec "Mon" (8.5 : ℚ) 10], [gapRec "Mon" 8 (9.5 : ℚ)],
        [gapRec "Mon" 8 9]]) := by
  have wf1 : WFGaps [gapRec "Mon" 8 9] := by
    refine ⟨?_, List.pairwise_singleton _ _⟩
    intro g hg
    simp only [List.mem_singleton] at hg
    subst hg
    exact ⟨by simp [gapRec, DAYS_OF_WEEK], by norm_num [gapRec]⟩
  have wf2 : WFGaps [gapRec "Mon" (8.5 : ℚ) 10] := by
    refine ⟨?_, List.pairwise_singleton _ _⟩
    intro g hg
    simp only [List.mem_singleton] at hg
    subst hg
    exact ⟨by simp [gapRec, DAYS_OF_WEEK], by norm_num [gapRec]⟩
  have wf3 : WFGaps [gapRec "Mon" 8 (9.5 : ℚ)] := by
    refine ⟨?_, List.pairwise_singleton _ _⟩
    intro g hg
    simp only [List.mem_singleton] at hg
    subst hg
    exact ⟨by simp [gapRec, DAYS_OF_WEEK], by norm_num [gapRec]⟩
  exact ⟨wf1, wf2, wf3, c2_order_independence _ _ _ wf1 wf2 wf3⟩

/-! ## `WFGaps` is not an artificial hypothesis: the gap calculator always
produces well-formed lists (on schedules with chronological events). -/

lemma sweep_day_start_ge {day : String} {l : List Event} :
    ∀ {cur : ℚ} {g : Gap}, g ∈ sweep_day day cur l → cur ≤ g.start := by
  induction l with
  | nil => intro cur g hg; simp [sweep_day] at hg
  | cons e rest ih =>
    intro cur g hg
    simp only [sweep_day] at hg
    rcases List.mem_append.1 hg with h | h
    · split_ifs at h with h1 h2
      · simp only [List.mem_singleton] at h
        subst h
        exact le_refl _
      · simp at h
      · simp at h
    · exact le_trans (le_max_left _ _) (ih h)

lemma sweep_day_day_eq {day : String} {cur : ℚ} {l : List Event} {g : Gap}
    (hg : g ∈ sweep_day day cur l) : g.day = day := by
  obtain ⟨c, t, rfl, -⟩ := mem_sweep_day hg
  rfl

lemma sweep_day_pairwise {day : String} {l : List Event}
    (hl : ∀ e ∈ l, e.start ≤ e.«end») :
    ∀ cur : ℚ, (sweep_day day cur l).Pairwise gapRel := by
  induction l with
  | nil => intro cur; simp [sweep_day]
  | cons e rest ih =>
    intro cur
    simp only [sweep_day]
    rw [List.pairwise_append]
    refine ⟨?_, ih (fun e' he' => hl e' (List.mem_cons_of_mem e he')) _, ?_⟩
    · split_ifs <;> simp
    · intro a ha b hb
      split_ifs at ha with h1 h2
      · simp only [List.mem_singleton] at ha
        subst ha
        refine Or.inr ⟨(sweep_day_day_eq hb).symm, ?_⟩
        have h3 : e.start ≤ e.«end» := hl e (List.mem_cons_self e rest)
        exact le_trans h3 (le_trans (le_max_right _ _) (sweep_day_start_ge hb))
      · simp at ha
      · simp at ha

/-- On a schedule whose events are chronological (`start ≤ end`, as all
parsed events with `start < end` are), `calculate_gaps` yields a
well-formed gap list. -/
lemma wf_calculate_gaps {schedule : List Event}
    (h : ∀ e ∈ schedule, e.start ≤ e.«end») : WFGaps (calculate_gaps schedule) := by
  constructor
  · intro g hg
    obtain ⟨d, hd, hmem⟩ := mem_calculate_gaps.1 hg
    obtain ⟨c, t, rfl, hdur⟩ := mem_sweep_day hmem
    exact ⟨hd, by simp only [gapRec]; linarith⟩
  · unfold calculate_gaps
    rw [List.pairwise_flatMap]
    constructor
    · intro d _
      apply sweep_day_pairwise
      intro e he
      have he' : e ∈ schedule.filter (fun e => e.day == d) :=
        ((List.perm_insertionSort _ _).mem_iff).1 he
      exact h e (List.mem_filter.1 he').1
    · have hdays : DAYS_OF_WEEK.Pairwise (fun a b => dayIdx a < dayIdx b) := by decide
      refine List.Pairwise.imp ?_ hdays
      intro d d' hlt x hx y hy
      exact Or.inl (by rw [sweep_day_day_eq hx, sweep_day_day_eq hy]; exact hlt)

end MakanApa
